import Mathlib

/-!
Verification of `synthetic_raster_spectral_signature.py`: a shallow embedding
in Lean 4 of the synthetic multispectral raster pipeline (band registry, raster
synthesizer, georeferencer, spectrum extractor, vegetation index, band
statistics), with theorems settling the specification's claims.

Reflectance arithmetic is modelled over ℚ.  The Gaussian noise drawn from the
seeded generator is modelled as an arbitrary function from (band, row, col) to
ℚ, so the theorems quantify over every possible noise realisation.
-/

namespace RasterSpec

/-- Source: `BANDS = ["Blue", "Green", "Red", "NIR", "SWIR1", "SWIR2"]`. -/
def BANDS : List String := ["Blue", "Green", "Red", "NIR", "SWIR1", "SWIR2"]

/-- Source: `WAVELENGTH_NM = np.array([490, 560, 665, 865, 1610, 2200])`. -/
def WAVELENGTH_NM : List ℕ := [490, 560, 665, 865, 1610, 2200]

/-- Source: `N_BANDS = len(BANDS)`. -/
def N_BANDS : ℕ := BANDS.length

/-- Source: `ROWS, COLS = 3, 3`. -/
def ROWS : ℕ := 3

def COLS : ℕ := 3

/-- Source: `BASE = np.array([0.12, 0.18, 0.22, 0.46, 0.31, 0.27])`. -/
def BASE : List ℚ := [12/100, 18/100, 22/100, 46/100, 31/100, 27/100]

/-- Scalar form of `np.clip(x, lo, hi)`: `min(max(x, lo), hi)`. -/
def clip (lo hi x : ℚ) : ℚ := min hi (max lo x)

/-- Entry `(row, col)` of
`grad = (np.arange(ROWS).reshape(-1, 1) * 0.01) + (np.arange(COLS) * 0.005)`. -/
def grad (row col : ℕ) : ℚ := (row : ℚ) * (1/100) + (col : ℚ) * (5/1000)

/-- A noise realisation: the value drawn by `rng.normal(0, 0.002, ...)` for
band `b` at spatial position `(row, col)`. -/
def Noise : Type := ℕ → ℕ → ℕ → ℚ

/-- Pre-clipping value: `raster[b] = BASE[b] + grad + noise`. -/
def rasterRaw (noise : Noise) (b row col : ℕ) : ℚ :=
  BASE.getD b 0 + grad row col + noise b row col

/-- The synthesised reflectance cube after `raster = np.clip(raster, 0, 1)`. -/
def raster (noise : Noise) (b row col : ℕ) : ℚ :=
  clip 0 1 (rasterRaw noise b row col)

/-- Modelled from the spec: the stream of values produced by
`np.random.default_rng(seed)` drawing `normal(0, 0.002)`.  The PCG64 generator
is library code outside this repository; per the spec it is a deterministic
function of the fixed integer seed, which is all the determinism contract
uses.  A concrete deterministic stand-in is chosen here. -/
def noiseFromSeed (seed : ℕ) : Noise :=
  fun b r c => (((seed + 31 * b + 7 * r + 3 * c) % 11 : ℕ) : ℚ) / 1000 - 5/1000

/-- One full run of the Raster Synthesizer with a given seed, producing the
(6, 3, 3) reflectance cube as nested lists. -/
def runSynthesis (seed : ℕ) : List (List (List ℚ)) :=
  (List.range N_BANDS).map fun b =>
    (List.range ROWS).map fun r =>
      (List.range COLS).map fun c => raster (noiseFromSeed seed) b r c

/-- Source: `rowcol_to_xy(row, col, x0, y0, xres, yres, center)`. -/
def rowcol_to_xy (row col x0 y0 xres yres : ℚ) (center : Bool) : ℚ × ℚ :=
  if center then
    (x0 + (col + 1/2) * xres, y0 - (row + 1/2) * yres)
  else
    (x0 + col * xres, y0 - row * yres)

/-- One row of the extracted spectrum table: (Band, Wavelength_nm, Reflectance). -/
structure SpecRow where
  band : String
  wavelength : ℕ
  reflectance : ℚ
  deriving Repr, DecidableEq

/-- The unsorted spectrum table
`pd.DataFrame({"Band": BANDS, "Wavelength_nm": WAVELENGTH_NM, "Reflectance": raster[:, row, col]})`:
one row per band, in band-registry order. -/
def spectrumRows (noise : Noise) (row col : ℕ) : List SpecRow :=
  (List.range N_BANDS).map fun b =>
    ⟨BANDS.getD b "", WAVELENGTH_NM.getD b 0, raster noise b row col⟩

/-- Row comparison used by `.sort_values("Wavelength_nm")`. -/
def byWavelength (a b : SpecRow) : Prop := a.wavelength ≤ b.wavelength

instance : DecidableRel byWavelength := fun a b => Nat.decLe a.wavelength b.wavelength

/-- The PixelSpectrum `df = ... .sort_values("Wavelength_nm")`: the table
sorted ascending by wavelength (a stable sort). -/
def sortedSpectrum (noise : Noise) (row col : ℕ) : List SpecRow :=
  List.insertionSort byWavelength (spectrumRows noise row col)

/-- Model of `df.loc[df["Band"] == name, "Reflectance"].iloc[0]`: reflectance
of the first row whose band name equals `name`, if any. -/
def lookupBand (rows : List SpecRow) (name : String) : Option ℚ :=
  (rows.find? fun r => r.band == name).map SpecRow.reflectance

/-- The normalized-difference formula `(nir - red) / (nir + red)`, applied
with no guard on the denominator. -/
def ndviFormula (nir red : ℚ) : ℚ := (nir - red) / (nir + red)

/-- NDVI computation of §6 of the script applied to an arbitrary spectrum
table: locate "NIR" and "Red", divide.  A lookup miss is the only failure
path; the denominator is never checked. -/
def ndviOfSpectrum (rows : List SpecRow) : Option ℚ :=
  match lookupBand rows "NIR", lookupBand rows "Red" with
  | some nir, some red => some (ndviFormula nir red)
  | _, _ => none

/-- The script's fixed pixel: `row, col = 1, 2`. -/
def PIXEL_ROW : ℕ := 1

def PIXEL_COL : ℕ := 2

/-- Value `ndvi = (nir - red) / (nir + red)` computed from the sorted spectrum
at the fixed pixel. -/
def ndvi (noise : Noise) : Option ℚ :=
  ndviOfSpectrum (sortedSpectrum noise PIXEL_ROW PIXEL_COL)

/-- All nine reflectance values of band `b`, row-major, as reduced by
`band_data.min() / .max() / .mean()`. -/
def bandValues (noise : Noise) (b : ℕ) : List ℚ :=
  (List.range ROWS).flatMap fun r =>
    (List.range COLS).map fun c => raster noise b r c

/-- Reduction of a list by `min` (numpy's `.min()`), as a fold. -/
def listMin : List ℚ → ℚ
  | [] => 0
  | x :: xs => xs.foldl min x

/-- Reduction of a list by `max` (numpy's `.max()`), as a fold. -/
def listMax : List ℚ → ℚ
  | [] => 0
  | x :: xs => xs.foldl max x

/-- Arithmetic mean (numpy's `.mean()`). -/
def listMean (l : List ℚ) : ℚ := l.sum / (l.length : ℚ)

/-- One record of the band-statistics report. -/
structure BandStatistic where
  band_name : String
  min : ℚ
  max : ℚ
  mean : ℚ
  deriving Repr, DecidableEq

/-- Stage 7 of the script: one statistics record per band, in band-registry
declaration order (`for b, band_name in enumerate(BANDS)`). -/
def bandStatistics (noise : Noise) : List BandStatistic :=
  (List.range N_BANDS).map fun b =>
    ⟨BANDS.getD b "", listMin (bandValues noise b), listMax (bandValues noise b),
      listMean (bandValues noise b)⟩

/-- A noise realisation that drives both NIR and Red reflectance at the fixed
pixel to exactly zero, making the NDVI denominator zero. -/
def zeroingNoise : Noise := fun b r c => -(BASE.getD b 0 + grad r c)

/-- The first record of the band statistics for the all-zero noise stream,
used as a concrete witness input. -/
def statBlue : BandStatistic :=
  ⟨"Blue", listMin (bandValues (fun _ _ _ => 0) 0), listMax (bandValues (fun _ _ _ => 0) 0),
    listMean (bandValues (fun _ _ _ => 0) 0)⟩

/-! ### Helper lemmas -/

theorem clip_nonneg (x : ℚ) : 0 ≤ clip 0 1 x := by
  unfold clip
  exact le_min (by norm_num) (le_max_left 0 x)

theorem clip_le_one (x : ℚ) : clip 0 1 x ≤ 1 := min_le_left 1 _

theorem raster_nonneg (noise : Noise) (b r c : ℕ) : 0 ≤ raster noise b r c :=
  clip_nonneg _

theorem raster_le_one (noise : Noise) (b r c : ℕ) : raster noise b r c ≤ 1 :=
  clip_le_one _

theorem spectrumRows_eq (noise : Noise) (row col : ℕ) :
    spectrumRows noise row col =
      [⟨"Blue", 490, raster noise 0 row col⟩, ⟨"Green", 560, raster noise 1 row col⟩,
       ⟨"Red", 665, raster noise 2 row col⟩, ⟨"NIR", 865, raster noise 3 row col⟩,
       ⟨"SWIR1", 1610, raster noise 4 row col⟩, ⟨"SWIR2", 2200, raster noise 5 row col⟩] := rfl

theorem sortedSpectrum_id (noise : Noise) (row col : ℕ) :
    sortedSpectrum noise row col = spectrumRows noise row col := rfl

theorem ndvi_eval (noise : Noise) :
    ndvi noise =
      some (ndviFormula (raster noise 3 PIXEL_ROW PIXEL_COL)
        (raster noise 2 PIXEL_ROW PIXEL_COL)) := rfl

theorem bandValues_eq (noise : Noise) (b : ℕ) :
    bandValues noise b = [raster noise b 0 0, raster noise b 0 1, raster noise b 0 2,
      raster noise b 1 0, raster noise b 1 1, raster noise b 1 2,
      raster noise b 2 0, raster noise b 2 1, raster noise b 2 2] := rfl

theorem bandValues_ne_nil (noise : Noise) (b : ℕ) : bandValues noise b ≠ [] := by
  rw [bandValues_eq]
  simp

theorem bandValues_bounds (noise : Noise) (b : ℕ) :
    ∀ x ∈ bandValues noise b, 0 ≤ x ∧ x ≤ 1 := by
  intro x hx
  rw [bandValues_eq] at hx
  simp only [List.mem_cons, List.not_mem_nil, or_false] at hx
  rcases hx with rfl | rfl | rfl | rfl | rfl | rfl | rfl | rfl | rfl
  all_goals exact ⟨raster_nonneg _ _ _ _, raster_le_one _ _ _ _⟩

theorem foldl_min_le_init (xs : List ℚ) : ∀ x : ℚ, xs.foldl min x ≤ x := by
  induction xs with
  | nil => intro x; exact le_refl x
  | cons z zs ih => intro x; exact le_trans (ih (min x z)) (min_le_left x z)

theorem foldl_min_le_mem (xs : List ℚ) : ∀ x y : ℚ, y ∈ x :: xs → xs.foldl min x ≤ y := by
  induction xs with
  | nil =>
    intro x y hy
    simp only [List.mem_singleton] at hy
    subst hy
    exact le_refl y
  | cons z zs ih =>
    intro x y hy
    rcases List.mem_cons.mp hy with rfl | hy'
    · exact le_trans (foldl_min_le_init zs (min y z)) (min_le_left y z)
    · rcases List.mem_cons.mp hy' with rfl | hy''
      · exact le_trans (foldl_min_le_init zs (min x y)) (min_le_right x y)
      · exact ih (min x z) y (List.mem_cons_of_mem _ hy'')

theorem foldl_min_mem (xs : List ℚ) : ∀ x : ℚ, xs.foldl min x ∈ x :: xs := by
  induction xs with
  | nil => intro x; exact List.mem_singleton.mpr rfl
  | cons z zs ih =>
    intro x
    have h := ih (min x z)
    rcases List.mem_cons.mp h with h1 | h1
    · show List.foldl min (min x z) zs ∈ x :: z :: zs
      rw [h1]
      rcases min_choice x z with h2 | h2 <;> rw [h2]
      · exact List.mem_cons_self _ _
      · exact List.mem_cons_of_mem _ (List.mem_cons_self _ _)
    · exact List.mem_cons_of_mem _ (List.mem_cons_of_mem _ h1)

theorem init_le_foldl_max (xs : List ℚ) : ∀ x : ℚ, x ≤ xs.foldl max x := by
  induction xs with
  | nil => intro x; exact le_refl x
  | cons z zs ih => intro x; exact le_trans (le_max_left x z) (ih (max x z))

theorem mem_le_foldl_max (xs : List ℚ) : ∀ x y : ℚ, y ∈ x :: xs → y ≤ xs.foldl max x := by
  induction xs with
  | nil =>
    intro x y hy
    simp only [List.mem_singleton] at hy
    subst hy
    exact le_refl y
  | cons z zs ih =>
    intro x y hy
    rcases List.mem_cons.mp hy with rfl | hy'
    · exact le_trans (le_max_left y z) (init_le_foldl_max zs (max y z))
    · rcases List.mem_cons.mp hy' with rfl | hy''
      · exact le_trans (le_max_right x y) (init_le_foldl_max zs (max x y))
      · exact ih (max x z) y (List.mem_cons_of_mem _ hy'')

theorem foldl_max_mem (xs : List ℚ) : ∀ x : ℚ, xs.foldl max x ∈ x :: xs := by
  induction xs with
  | nil => intro x; exact List.mem_singleton.mpr rfl
  | cons z zs ih =>
    intro x
    have h := ih (max x z)
    rcases List.mem_cons.mp h with h1 | h1
    · show List.foldl max (max x z) zs ∈ x :: z :: zs
      rw [h1]
      rcases max_choice x z with h2 | h2 <;> rw [h2]
      · exact List.mem_cons_self _ _
      · exact List.mem_cons_of_mem _ (List.mem_cons_self _ _)
    · exact List.mem_cons_of_mem _ (List.mem_cons_of_mem _ h1)

theorem listMin_le_mem (l : List ℚ) : ∀ y ∈ l, listMin l ≤ y := by
  cases l with
  | nil => intro y hy; exact absurd hy (List.not_mem_nil y)
  | cons x xs => intro y hy; exact foldl_min_le_mem xs x y hy

theorem mem_le_listMax (l : List ℚ) : ∀ y ∈ l, y ≤ listMax l := by
  cases l with
  | nil => intro y hy; exact absurd hy (List.not_mem_nil y)
  | cons x xs => intro y hy; exact mem_le_foldl_max xs x y hy

theorem listMin_mem : ∀ l : List ℚ, l ≠ [] → listMin l ∈ l
  | [], h => absurd rfl h
  | x :: xs, _ => foldl_min_mem xs x

theorem listMax_mem : ∀ l : List ℚ, l ≠ [] → listMax l ∈ l
  | [], h => absurd rfl h
  | x :: xs, _ => foldl_max_mem xs x

theorem listMin_le_listMean (l : List ℚ) (h : l ≠ []) : listMin l ≤ listMean l := by
  have hlen : 0 < l.length := List.length_pos.mpr h
  have hlenQ : (0 : ℚ) < (l.length : ℚ) := by exact_mod_cast hlen
  have hsum : (l.length : ℚ) * listMin l ≤ l.sum := by
    have h2 := List.card_nsmul_le_sum l (listMin l) (listMin_le_mem l)
    simpa [nsmul_eq_mul] using h2
  rw [listMean, le_div_iff₀ hlenQ, mul_comm]
  exact hsum

theorem listMean_le_listMax (l : List ℚ) (h : l ≠ []) : listMean l ≤ listMax l := by
  have hlen : 0 < l.length := List.length_pos.mpr h
  have hlenQ : (0 : ℚ) < (l.length : ℚ) := by exact_mod_cast hlen
  have hsum : l.sum ≤ (l.length : ℚ) * listMax l := by
    have h2 := List.sum_le_card_nsmul l (listMax l) (mem_le_listMax l)
    simpa [nsmul_eq_mul] using h2
  rw [listMean, div_le_iff₀ hlenQ, mul_comm]
  exact hsum

theorem wavelengths_ascending : WAVELENGTH_NM.Pairwise (· < ·) := by
  rw [WAVELENGTH_NM]
  norm_num [List.pairwise_cons]

/-! ### Claim theorems -/

/-- Claim C1: the vegetation index is computed from the sorted PixelSpectrum
at the fixed pixel (row=1, col=2) by locating the single row named "NIR" and
the single row named "Red"; the located reflectances are exactly the raster
values of bands 3 (NIR) and 2 (Red) at that pixel, and the NDVI equals
`(nir - red) / (nir + red)` of those extracted values — not a hardcoded
literal, since this holds for every noise realisation. -/
theorem ndvi_from_sorted_spectrum (noise : Noise) :
    lookupBand (sortedSpectrum noise PIXEL_ROW PIXEL_COL) "NIR" =
      some (raster noise 3 PIXEL_ROW PIXEL_COL) ∧
    lookupBand (sortedSpectrum noise PIXEL_ROW PIXEL_COL) "Red" =
      some (raster noise 2 PIXEL_ROW PIXEL_COL) ∧
    ((sortedSpectrum noise PIXEL_ROW PIXEL_COL).filter fun r => r.band == "NIR").length = 1 ∧
    ((sortedSpectrum noise PIXEL_ROW PIXEL_COL).filter fun r => r.band == "Red").length = 1 ∧
    ndvi noise =
      some (ndviFormula (raster noise 3 PIXEL_ROW PIXEL_COL)
        (raster noise 2 PIXEL_ROW PIXEL_COL)) :=
  ⟨rfl, rfl, rfl, rfl, rfl⟩

/-- Claim C2: after synthesis (base plus gradient plus noise followed by
clipping), every element of the raster lies in [0, 1]; this holds for every
band/row/col index and every noise realisation, hence for the whole (6, 3, 3)
array throughout the run (the array is never written again). -/
theorem raster_range_invariant (noise : Noise) (b r c : ℕ) :
    0 ≤ raster noise b r c ∧ raster noise b r c ≤ 1 :=
  ⟨raster_nonneg noise b r c, raster_le_one noise b r c⟩

/-- Claim C3: the georeference transform returns
`(x0 + (col + 0.5) * xres, y0 - (row + 0.5) * yres)` when centered and
`(x0 + col * xres, y0 - row * yres)` otherwise; in particular
`rowcol_to_xy(1, 2, -59.0, 15.0, 0.01, 0.01, center=True)` is
`lon = -58.975, lat = 14.985` within tolerance 1e-5 (here exactly). -/
theorem rowcol_to_xy_spec :
    (∀ row col x0 y0 xres yres : ℚ,
      rowcol_to_xy row col x0 y0 xres yres true =
        (x0 + (col + 1/2) * xres, y0 - (row + 1/2) * yres) ∧
      rowcol_to_xy row col x0 y0 xres yres false =
        (x0 + col * xres, y0 - row * yres)) ∧
    |(rowcol_to_xy 1 2 (-59) 15 (1/100) (1/100) true).1 - (-58975/1000)| ≤ 1/100000 ∧
    |(rowcol_to_xy 1 2 (-59) 15 (1/100) (1/100) true).2 - 14985/1000| ≤ 1/100000 := by
  refine ⟨fun row col x0 y0 xres yres => ⟨rfl, rfl⟩, ?_, ?_⟩ <;>
    norm_num [rowcol_to_xy]

/-- Claim C4: for every pixel (row, col) and every noise realisation, the
extracted PixelSpectrum has length exactly 6 and its rows are strictly
ascending by wavelength after sorting. -/
theorem pixelSpectrum_length_and_ascending (noise : Noise) (row col : ℕ) :
    (sortedSpectrum noise row col).length = 6 ∧
    (sortedSpectrum noise row col).Pairwise fun a b => a.wavelength < b.wavelength := by
  rw [sortedSpectrum_id, spectrumRows_eq]
  refine ⟨rfl, ?_⟩
  simp [List.pairwise_cons]

/-- Claim C5: the raster synthesizer is deterministic: the noise stream is a
function of the fixed integer seed alone, so two independent runs with the
same seed produce identical (6, 3, 3) reflectance arrays. -/
theorem runSynthesis_deterministic (seed₁ seed₂ : ℕ) (h : seed₁ = seed₂) :
    runSynthesis seed₁ = runSynthesis seed₂ := by
  rw [h]

theorem runSynthesis_deterministic_witness :
    runSynthesis 42 = runSynthesis 42 :=
  runSynthesis_deterministic 42 42 rfl

/-- Claim C6: for every noise realisation, every record of the band-statistics
report satisfies min ≤ mean ≤ max with max ≤ 1 and 0 ≤ min, and the records
appear one per band in band-registry declaration order. -/
theorem bandStatistics_consistent (noise : Noise) :
    (∀ s ∈ bandStatistics noise,
      s.min ≤ s.mean ∧ s.mean ≤ s.max ∧ s.max ≤ 1 ∧ 0 ≤ s.min) ∧
    (bandStatistics noise).map BandStatistic.band_name = BANDS := by
  constructor
  · intro s hs
    simp only [bandStatistics, List.mem_map, List.mem_range] at hs
    obtain ⟨b, hb, rfl⟩ := hs
    have hne := bandValues_ne_nil noise b
    have hbd := bandValues_bounds noise b
    exact ⟨listMin_le_listMean _ hne, listMean_le_listMax _ hne,
      (hbd _ (listMax_mem _ hne)).2, (hbd _ (listMin_mem _ hne)).1⟩
  · rfl

theorem bandStatistics_consistent_witness :
    statBlue.min ≤ statBlue.mean ∧ statBlue.mean ≤ statBlue.max ∧
      statBlue.max ≤ 1 ∧ 0 ≤ statBlue.min :=
  (bandStatistics_consistent (fun _ _ _ => 0)).1 statBlue (by
    unfold bandStatistics statBlue
    exact List.mem_map.mpr ⟨0, List.mem_range.mpr (by norm_num [N_BANDS, BANDS]), rfl⟩)

/-- Claim C7 counterexample: the claim that the band registry's declaration
order differs from ascending-wavelength order is false — the declared
wavelengths are already strictly ascending, sorting them is the identity, and
the downstream sort leaves the spectrum rows exactly in declaration order. -/
theorem band_registry_order_counterexample :
    List.insertionSort (fun a b : ℕ => a ≤ b) WAVELENGTH_NM = WAVELENGTH_NM ∧
    sortedSpectrum (fun _ _ _ => 0) PIXEL_ROW PIXEL_COL =
      spectrumRows (fun _ _ _ => 0) PIXEL_ROW PIXEL_COL ∧
    WAVELENGTH_NM.Pairwise (· < ·) :=
  ⟨rfl, rfl, wavelengths_ascending⟩

/-- Claim C7 (amended): the fixed band registry is ordered by sensor channel,
and that order coincides with ascending-wavelength order; consequently the
downstream sort by wavelength leaves the rows in declaration order for every
pixel and noise realisation. -/
theorem band_registry_order_amended (noise : Noise) (row col : ℕ) :
    WAVELENGTH_NM.Pairwise (· < ·) ∧
    sortedSpectrum noise row col = spectrumRows noise row col :=
  ⟨wavelengths_ascending, sortedSpectrum_id noise row col⟩

/-- Claim C8: the vegetation-index division carries no zero-denominator
guard: the computation always yields a value (its only failure path is a
band-name lookup miss), and at a noise realisation driving NIR and Red at the
fixed pixel both to 0 — so the denominator is exactly zero — it still returns
the raw unvalidated quotient (total division in the rational model; platform
floats would put an infinity or not-a-number here). -/
theorem ndvi_unguarded_zero_denominator :
    (∀ noise : Noise, (ndvi noise).isSome = true) ∧
    raster zeroingNoise 3 PIXEL_ROW PIXEL_COL + raster zeroingNoise 2 PIXEL_ROW PIXEL_COL = 0 ∧
    ndvi zeroingNoise =
      some (ndviFormula (raster zeroingNoise 3 PIXEL_ROW PIXEL_COL)
        (raster zeroingNoise 2 PIXEL_ROW PIXEL_COL)) := by
  refine ⟨fun noise => by rw [ndvi_eval]; rfl, ?_, ndvi_eval zeroingNoise⟩
  norm_num [raster, rasterRaw, zeroingNoise, clip, grad, BASE, PIXEL_ROW, PIXEL_COL,
    min_def, max_def]

/-- Claim C9 (implicit): whenever the NIR and Red reflectances at the fixed
pixel (nonnegative by clipping) have positive sum, the computed vegetation
index lies in [-1, 1]. -/
theorem ndvi_in_unit_interval (noise : Noise)
    (hpos : 0 < raster noise 3 PIXEL_ROW PIXEL_COL + raster noise 2 PIXEL_ROW PIXEL_COL) :
    ∀ q, ndvi noise = some q → -1 ≤ q ∧ q ≤ 1 := by
  intro q hq
  rw [ndvi_eval, Option.some_inj] at hq
  subst hq
  have h1 : 0 ≤ raster noise 3 PIXEL_ROW PIXEL_COL := raster_nonneg _ _ _ _
  have h2 : 0 ≤ raster noise 2 PIXEL_ROW PIXEL_COL := raster_nonneg _ _ _ _
  constructor
  · rw [ndviFormula, le_div_iff₀ hpos]
    linarith
  · rw [ndviFormula, div_le_one hpos]
    linarith

theorem ndvi_in_unit_interval_witness :
    -1 ≤ ndviFormula (raster (fun _ _ _ => 0) 3 PIXEL_ROW PIXEL_COL)
        (raster (fun _ _ _ => 0) 2 PIXEL_ROW PIXEL_COL) ∧
      ndviFormula (raster (fun _ _ _ => 0) 3 PIXEL_ROW PIXEL_COL)
        (raster (fun _ _ _ => 0) 2 PIXEL_ROW PIXEL_COL) ≤ 1 :=
  ndvi_in_unit_interval (fun _ _ _ => 0)
    (by norm_num [raster, rasterRaw, clip, grad, BASE, PIXEL_ROW, PIXEL_COL, min_def, max_def])
    _ (ndvi_eval _)

/-- Claim C10 (implicit): for all inputs, the centered transform equals the
uncentered one shifted by half a pixel, i.e. `(lon + xres/2, lat - yres/2)`,
and equivalently equals the uncentered transform evaluated at
`(row + 1/2, col + 1/2)`. -/
theorem rowcol_to_xy_half_pixel_shift (row col x0 y0 xres yres : ℚ) :
    rowcol_to_xy row col x0 y0 xres yres true =
      ((rowcol_to_xy row col x0 y0 xres yres false).1 + xres / 2,
       (rowcol_to_xy row col x0 y0 xres yres false).2 - yres / 2) ∧
    rowcol_to_xy row col x0 y0 xres yres true =
      rowcol_to_xy (row + 1/2) (col + 1/2) x0 y0 xres yres false := by
  have h1 : rowcol_to_xy row col x0 y0 xres yres true =
      (x0 + (col + 1/2) * xres, y0 - (row + 1/2) * yres) := rfl
  have h2 : rowcol_to_xy row col x0 y0 xres yres false =
      (x0 + col * xres, y0 - row * yres) := rfl
  have h3 : rowcol_to_xy (row + 1/2) (col + 1/2) x0 y0 xres yres false =
      (x0 + (col + 1/2) * xres, y0 - (row + 1/2) * yres) := rfl
  rw [h1, h2, h3]
  exact ⟨Prod.ext (by ring) (by ring), rfl⟩

end RasterSpec
